import Mathlib

/-!
Verification of the AI Quiz Generator core logic.

Shallow embedding of the client-side quiz logic:

* `QuizDisplay` (session state machine and score memo),
* `QuizInput` (question-count clamping and submit validation),
* `shuffleArray` from `App.tsx` (Fisher–Yates shuffle),
* the response validation inside `generateQuizFromText` of
  `services/geminiService.ts`.

JavaScript objects keyed by question index (`Record<number, string>`) are
modelled as association lists whose insert removes the overwritten key, so
the key list of a map built from the empty object stays duplicate-free and
its length is `Object.keys(m).length`.  JavaScript numbers that carry
integer data are modelled as `Int`/`Nat`; the numeric field value in the
clamping handler is modelled as `ℚ` (every finite JS number is rational),
with `Option` capturing `NaN` from `valueAsNumber`.
-/

/-- A quiz question, from `types.ts`: question text, options, and the
correct answer (the exact text of one of the options). -/
structure Question where
  questionText : String
  options : List String
  correctAnswer : String
deriving DecidableEq, Repr

/-- A quiz: an ordered list of questions. -/
structure Quiz where
  questions : List Question
deriving DecidableEq, Repr

/-- The session's answer map `userAnswers : Record<number, string>`,
as an association list from question index to the selected option. -/
abbrev AnswerMap := List (Nat × String)

/-- `{ ...prev, [questionIndex]: option }`: binding `questionIndex` to
`option`, overwriting any prior binding for that key. -/
def insertAnswer (m : AnswerMap) (i : Nat) (option : String) : AnswerMap :=
  (i, option) :: m.filter (fun p => p.1 != i)

/-- `userAnswers[index]`: the recorded answer for a question index,
`none` when the object has no such key (JS `undefined`). -/
def lookupAnswer (m : AnswerMap) (i : Nat) : Option String :=
  match m with
  | [] => none
  | p :: rest => if p.1 = i then some p.2 else lookupAnswer rest i

/-- The three `useState` pieces of `QuizDisplay`:
`userAnswers`, `showResults`, `isConfirmModalOpen`. -/
structure SessionState where
  userAnswers : AnswerMap
  showResults : Bool
  isConfirmModalOpen : Bool
deriving DecidableEq, Repr

/-- Initial state: `useState({})`, `useState(false)`, `useState(false)`. -/
def initialSession : SessionState :=
  { userAnswers := [], showResults := false, isConfirmModalOpen := false }

/-- The spec's session phases.  In the code the phase is carried by the two
booleans: `Results` iff `showResults`, otherwise `ConfirmPending` iff the
confirmation modal is open, otherwise `Answering`. -/
inductive Phase where
  | Answering
  | ConfirmPending
  | Results
deriving DecidableEq, Repr

/-- The phase encoded by a session state. -/
def SessionState.phase (s : SessionState) : Phase :=
  if s.showResults then .Results
  else if s.isConfirmModalOpen then .ConfirmPending
  else .Answering

/-- `handleAnswerSelect(questionIndex, option)`: returns unchanged when
`showResults` is set, otherwise records the answer. -/
def handleAnswerSelect (s : SessionState) (questionIndex : Nat)
    (option : String) : SessionState :=
  if s.showResults then s
  else { s with userAnswers := insertAnswer s.userAnswers questionIndex option }

/-- `handleSubmitClick()`: opens the confirmation modal when
`Object.keys(userAnswers).length < quiz.questions.length`, otherwise shows
the results. -/
def handleSubmitClick (quiz : Quiz) (s : SessionState) : SessionState :=
  if s.userAnswers.length < quiz.questions.length then
    { s with isConfirmModalOpen := true }
  else
    { s with showResults := true }

/-- `handleConfirmSubmit()`: shows results and closes the modal. -/
def handleConfirmSubmit (s : SessionState) : SessionState :=
  { s with showResults := true, isConfirmModalOpen := false }

/-- The modal's `onCancel` handler: `setIsConfirmModalOpen(false)`. -/
def onCancelConfirm (s : SessionState) : SessionState :=
  { s with isConfirmModalOpen := false }

/-- The `forEach` tally of the score memo, counting (correct, incorrect)
over the questions starting at index `idx`: an unanswered index counts in
neither, an answer equal to the question's `correctAnswer` counts as
correct, any other answer as incorrect. -/
def tallyFrom (ans : AnswerMap) (idx : Nat) : List Question → Nat × Nat
  | [] => (0, 0)
  | q :: rest =>
    let t := tallyFrom ans (idx + 1) rest
    match lookupAnswer ans idx with
    | none => t
    | some a => if a = q.correctAnswer then (t.1 + 1, t.2) else (t.1, t.2 + 1)

/-- The record returned by the score `useMemo`. -/
structure ScoreView where
  score : Int
  correctCount : Nat
  incorrectCount : Nat
  unansweredCount : Int
deriving DecidableEq, Repr

/-- The score `useMemo` of `QuizDisplay`: zeros (with all questions
unanswered) before results are shown; once `showResults` is set, the tally
counts, `finalScore = negativeMarking ? correct - incorrect : correct`, and
`unanswered = quiz.questions.length - correct - incorrect`. -/
def scoreMemo (quiz : Quiz) (s : SessionState) (negativeMarking : Bool) :
    ScoreView :=
  if s.showResults = false then
    { score := 0, correctCount := 0, incorrectCount := 0,
      unansweredCount := (quiz.questions.length : Int) }
  else
    let t := tallyFrom s.userAnswers 0 quiz.questions
    { score := if negativeMarking then (t.1 : Int) - (t.2 : Int) else (t.1 : Int),
      correctCount := t.1, incorrectCount := t.2,
      unansweredCount := (quiz.questions.length : Int) - (t.1 : Int) - (t.2 : Int) }

/-- Classification of one question index. -/
inductive AnswerClass where
  | correct
  | incorrect
  | unanswered
deriving DecidableEq, Repr

/-- Pair each element with its index, starting at `i`. -/
def withIndexFrom (i : Nat) : List Question → List (Nat × Question)
  | [] => []
  | q :: rest => (i, q) :: withIndexFrom (i + 1) rest

/-- The spec's classification of one indexed question: no recorded answer
→ unanswered; recorded answer equal to `correctAnswer` → correct;
otherwise incorrect. -/
def classifyAt (ans : AnswerMap) (p : Nat × Question) : AnswerClass :=
  match lookupAnswer ans p.1 with
  | none => .unanswered
  | some a => if a = p.2.correctAnswer then .correct else .incorrect

/-- The spec's per-index classification, one entry per question index
0..N-1. -/
def classifyQuestions (quiz : Quiz) (ans : AnswerMap) : List AnswerClass :=
  (withIndexFrom 0 quiz.questions).map (classifyAt ans)

theorem tallyFrom_eq_counts (ans : AnswerMap) :
    ∀ (qs : List Question) (idx : Nat),
      tallyFrom ans idx qs =
        (((withIndexFrom idx qs).map (classifyAt ans)).count .correct,
         ((withIndexFrom idx qs).map (classifyAt ans)).count .incorrect)
  | [], _ => rfl
  | q :: rest, idx => by
    have ih := tallyFrom_eq_counts ans rest (idx + 1)
    simp only [tallyFrom, withIndexFrom, List.map_cons, List.count_cons, ih,
      classifyAt]
    cases h : lookupAnswer ans idx with
    | none => simp
    | some a =>
      by_cases hc : a = q.correctAnswer <;> simp [hc]

theorem count_classes_sum (l : List AnswerClass) :
    l.count .correct + l.count .incorrect + l.count .unanswered = l.length := by
  induction l with
  | nil => rfl
  | cons c rest ih =>
    cases c <;> simp [List.count_cons] <;> omega

theorem withIndexFrom_length :
    ∀ (qs : List Question) (i : Nat), (withIndexFrom i qs).length = qs.length
  | [], _ => rfl
  | _ :: rest, i => by
    simp only [withIndexFrom, List.length_cons, withIndexFrom_length rest (i + 1)]

theorem length_classifyQuestions (quiz : Quiz) (ans : AnswerMap) :
    (classifyQuestions quiz ans).length = quiz.questions.length := by
  unfold classifyQuestions
  rw [List.length_map, withIndexFrom_length]

theorem scoreMemo_results (quiz : Quiz) (ua : AnswerMap) (modal neg : Bool) :
    scoreMemo quiz ⟨ua, true, modal⟩ neg =
      { score := if neg then
            ((tallyFrom ua 0 quiz.questions).1 : Int) -
              ((tallyFrom ua 0 quiz.questions).2 : Int)
          else ((tallyFrom ua 0 quiz.questions).1 : Int),
        correctCount := (tallyFrom ua 0 quiz.questions).1,
        incorrectCount := (tallyFrom ua 0 quiz.questions).2,
        unansweredCount := (quiz.questions.length : Int) -
          ((tallyFrom ua 0 quiz.questions).1 : Int) -
          ((tallyFrom ua 0 quiz.questions).2 : Int) } := rfl

/-- C1: upon entering Results, the final score is `correctCount` when
negative marking is disabled and `correctCount − incorrectCount` when it is
enabled; in the latter case the score can be negative (no floor at zero). -/
theorem finalScore_spec (quiz : Quiz) (ua : AnswerMap) (modal : Bool) :
    ((scoreMemo quiz ⟨ua, true, modal⟩ false).score =
        ((scoreMemo quiz ⟨ua, true, modal⟩ false).correctCount : Int) ∧
      (scoreMemo quiz ⟨ua, true, modal⟩ true).score =
        ((scoreMemo quiz ⟨ua, true, modal⟩ true).correctCount : Int) -
          ((scoreMemo quiz ⟨ua, true, modal⟩ true).incorrectCount : Int)) ∧
    ∃ (q : Quiz) (m : AnswerMap) (mo : Bool),
      (scoreMemo q ⟨m, true, mo⟩ true).score < 0 := by
  refine ⟨⟨by simp [scoreMemo_results], by simp [scoreMemo_results]⟩, ?_⟩
  exact ⟨⟨[⟨"q", ["a", "b"], "a"⟩]⟩, [(0, "b")], false, by decide⟩

/-- C2: after entering Results, `correctCount`, `incorrectCount` and
`unansweredCount` are the numbers of question indices 0..N-1 classified as
correct, incorrect and unanswered respectively (unanswered when no answer
is recorded, correct when the recorded answer equals `correctAnswer`,
incorrect otherwise), and the three counts sum to N. -/
theorem results_counts_spec (quiz : Quiz) (ua : AnswerMap) (modal neg : Bool) :
    (scoreMemo quiz ⟨ua, true, modal⟩ neg).correctCount =
        (classifyQuestions quiz ua).count .correct ∧
    (scoreMemo quiz ⟨ua, true, modal⟩ neg).incorrectCount =
        (classifyQuestions quiz ua).count .incorrect ∧
    (scoreMemo quiz ⟨ua, true, modal⟩ neg).unansweredCount =
        ((classifyQuestions quiz ua).count .unanswered : Int) ∧
    ((scoreMemo quiz ⟨ua, true, modal⟩ neg).correctCount : Int) +
        ((scoreMemo quiz ⟨ua, true, modal⟩ neg).incorrectCount : Int) +
        (scoreMemo quiz ⟨ua, true, modal⟩ neg).unansweredCount =
      (quiz.questions.length : Int) := by
  have ht := tallyFrom_eq_counts ua quiz.questions 0
  have h1 : (tallyFrom ua 0 quiz.questions).1 =
      (classifyQuestions quiz ua).count .correct := by
    rw [ht]; rfl
  have h2 : (tallyFrom ua 0 quiz.questions).2 =
      (classifyQuestions quiz ua).count .incorrect := by
    rw [ht]; rfl
  have hsum := count_classes_sum (classifyQuestions quiz ua)
  have hlen := length_classifyQuestions quiz ua
  simp only [scoreMemo_results, h1, h2]
  refine ⟨trivial, trivial, ?_, ?_⟩ <;> omega

theorem lookupAnswer_insert_self (m : AnswerMap) (i : Nat) (o : String) :
    lookupAnswer (insertAnswer m i o) i = some o := by
  simp [insertAnswer, lookupAnswer]

theorem lookupAnswer_nil (j : Nat) : lookupAnswer [] j = none := rfl

theorem lookupAnswer_cons (p : Nat × String) (rest : AnswerMap) (j : Nat) :
    lookupAnswer (p :: rest) j =
      if p.1 = j then some p.2 else lookupAnswer rest j := rfl

theorem lookupAnswer_filter_ne (i j : Nat) (hne : j ≠ i) :
    ∀ m : AnswerMap,
      lookupAnswer (m.filter (fun p => p.1 != i)) j = lookupAnswer m j
  | [] => rfl
  | p :: rest => by
    by_cases hp : p.1 = i
    · have hfalse : (p.1 != i) = false := by simp [hp]
      have hpj : p.1 ≠ j := by omega
      simp [List.filter_cons, hfalse, lookupAnswer_cons, hpj,
        lookupAnswer_filter_ne i j hne rest]
    · have htrue : (p.1 != i) = true := by simp [hp]
      simp [List.filter_cons, htrue, lookupAnswer_cons,
        lookupAnswer_filter_ne i j hne rest]

theorem lookupAnswer_insert_ne (m : AnswerMap) (i j : Nat) (o : String)
    (hne : j ≠ i) :
    lookupAnswer (insertAnswer m i o) j = lookupAnswer m j := by
  unfold insertAnswer
  rw [lookupAnswer_cons, if_neg (by omega)]
  exact lookupAnswer_filter_ne i j hne m

/-- C3 counterexample: in the ConfirmPending phase (results not yet shown,
confirmation modal open), `handleAnswerSelect` is not a no-op — it changes
the answer map. -/
theorem selectAnswer_confirmPending_mutates :
    (SessionState.phase ⟨[], false, true⟩ = Phase.ConfirmPending) ∧
    (handleAnswerSelect ⟨[], false, true⟩ 0 "A").userAnswers ≠
      (SessionState.mk [] false true).userAnswers := by
  decide

/-- C3 amended: `handleAnswerSelect` is a no-op exactly in the Results
phase; in both the Answering and the ConfirmPending phases it records the
given option for the given index (overwriting any prior answer for that
index and leaving every other index's answer unchanged) and touches no
other state.  (In the running UI the confirmation modal overlays the
option buttons, so the handler is not reachable by clicks while
ConfirmPending — but the handler itself guards only Results.) -/
theorem selectAnswer_phase_behavior (s : SessionState) (i : Nat)
    (opt : String) :
    (s.phase = Phase.Results → handleAnswerSelect s i opt = s) ∧
    (s.phase ≠ Phase.Results →
      (handleAnswerSelect s i opt).userAnswers = insertAnswer s.userAnswers i opt ∧
      lookupAnswer (handleAnswerSelect s i opt).userAnswers i = some opt ∧
      (∀ j : Nat, j ≠ i →
        lookupAnswer (handleAnswerSelect s i opt).userAnswers j =
          lookupAnswer s.userAnswers j) ∧
      (handleAnswerSelect s i opt).showResults = s.showResults ∧
      (handleAnswerSelect s i opt).isConfirmModalOpen = s.isConfirmModalOpen) := by
  unfold handleAnswerSelect SessionState.phase
  by_cases h : s.showResults
  · simp [h]
  · by_cases h2 : s.isConfirmModalOpen
    · simp [h, h2, lookupAnswer_insert_self]
      exact fun j hj => lookupAnswer_insert_ne s.userAnswers i j opt hj
    · simp [h, h2, lookupAnswer_insert_self]
      exact fun j hj => lookupAnswer_insert_ne s.userAnswers i j opt hj

/-- Witness for the amended C3 theorem at concrete states. -/
theorem selectAnswer_phase_behavior_witness :
    (handleAnswerSelect ⟨[(0, "a")], true, false⟩ 1 "b" =
      SessionState.mk [(0, "a")] true false) ∧
    (handleAnswerSelect ⟨[(0, "a")], false, true⟩ 1 "b").userAnswers =
      insertAnswer [(0, "a")] 1 "b" := by
  constructor
  · exact (selectAnswer_phase_behavior ⟨[(0, "a")], true, false⟩ 1 "b").1
      (by decide)
  · exact ((selectAnswer_phase_behavior ⟨[(0, "a")], false, true⟩ 1 "b").2
      (by decide)).1

theorem lookupAnswer_eq_none_iff :
    ∀ (m : AnswerMap) (i : Nat),
      lookupAnswer m i = none ↔ i ∉ m.map Prod.fst
  | [], i => by simp [lookupAnswer_nil]
  | p :: rest, i => by
    rw [lookupAnswer_cons]
    by_cases hp : p.1 = i
    · simp [hp]
    · rw [if_neg hp, lookupAnswer_eq_none_iff rest i]
      simp only [List.map_cons, List.mem_cons, not_or]
      constructor
      · intro h
        exact ⟨fun he => hp he.symm, h⟩
      · intro h
        exact h.2

theorem answers_length_le (m : AnswerMap) (N : Nat)
    (hnodup : (m.map Prod.fst).Nodup)
    (hbound : ∀ p ∈ m, p.1 < N) : m.length ≤ N := by
  have hsub : (m.map Prod.fst).toFinset ⊆ Finset.range N := by
    intro x hx
    rw [List.mem_toFinset] at hx
    obtain ⟨p, hp, rfl⟩ := List.mem_map.mp hx
    exact Finset.mem_range.mpr (hbound p hp)
  have hcard : (m.map Prod.fst).toFinset.card = m.length := by
    rw [List.toFinset_card_of_nodup hnodup, List.length_map]
  have := Finset.card_le_card hsub
  rw [hcard, Finset.card_range] at this
  exact this

theorem all_answered_iff_length (m : AnswerMap) (N : Nat)
    (hnodup : (m.map Prod.fst).Nodup)
    (hbound : ∀ p ∈ m, p.1 < N) :
    (∀ i < N, lookupAnswer m i ≠ none) ↔ m.length = N := by
  have hcard : (m.map Prod.fst).toFinset.card = m.length := by
    rw [List.toFinset_card_of_nodup hnodup, List.length_map]
  have hsub : (m.map Prod.fst).toFinset ⊆ Finset.range N := by
    intro x hx
    rw [List.mem_toFinset] at hx
    obtain ⟨p, hp, rfl⟩ := List.mem_map.mp hx
    exact Finset.mem_range.mpr (hbound p hp)
  constructor
  · intro hall
    have hrs : Finset.range N ⊆ (m.map Prod.fst).toFinset := by
      intro i hi
      rw [Finset.mem_range] at hi
      rw [List.mem_toFinset]
      by_contra hmem
      exact hall i hi ((lookupAnswer_eq_none_iff m i).mpr hmem)
    have h1 := Finset.card_le_card hrs
    have h2 := Finset.card_le_card hsub
    rw [hcard, Finset.card_range] at h1 h2
    omega
  · intro hlen i hi hnone
    have heq : (m.map Prod.fst).toFinset = Finset.range N :=
      Finset.eq_of_subset_of_card_le hsub
        (by rw [hcard, Finset.card_range, hlen])
    have : i ∈ (m.map Prod.fst).toFinset := by
      rw [heq]; exact Finset.mem_range.mpr hi
    rw [List.mem_toFinset] at this
    exact (lookupAnswer_eq_none_iff m i).mp hnone this

theorem phase_answering_iff (s : SessionState) :
    s.phase = Phase.Answering ↔
      s.showResults = false ∧ s.isConfirmModalOpen = false := by
  unfold SessionState.phase
  by_cases h : s.showResults <;> by_cases h2 : s.isConfirmModalOpen <;>
    simp [h, h2]

theorem phase_confirmPending_iff (s : SessionState) :
    s.phase = Phase.ConfirmPending ↔
      s.showResults = false ∧ s.isConfirmModalOpen = true := by
  unfold SessionState.phase
  by_cases h : s.showResults <;> by_cases h2 : s.isConfirmModalOpen <;>
    simp [h, h2]

/-- C4: from the Answering phase (given the session invariant that the
answer map's keys are distinct question indices below N), `submit` goes
straight to Results when every question index has a recorded answer and to
ConfirmPending otherwise, leaving the answers unchanged in both cases;
from ConfirmPending, `confirm` goes to Results and `cancel` returns to
Answering with the answer map unchanged. -/
theorem submit_flow_spec (quiz : Quiz) (s : SessionState)
    (hnodup : (s.userAnswers.map Prod.fst).Nodup)
    (hbound : ∀ p ∈ s.userAnswers, p.1 < quiz.questions.length)
    (hph : s.phase = Phase.Answering) :
    ((∀ i < quiz.questions.length, lookupAnswer s.userAnswers i ≠ none) →
        (handleSubmitClick quiz s).phase = Phase.Results ∧
        (handleSubmitClick quiz s).userAnswers = s.userAnswers) ∧
    ((¬ ∀ i < quiz.questions.length, lookupAnswer s.userAnswers i ≠ none) →
        (handleSubmitClick quiz s).phase = Phase.ConfirmPending ∧
        (handleSubmitClick quiz s).userAnswers = s.userAnswers) ∧
    (∀ s' : SessionState, s'.phase = Phase.ConfirmPending →
        (handleConfirmSubmit s').phase = Phase.Results ∧
        (onCancelConfirm s').phase = Phase.Answering ∧
        (onCancelConfirm s').userAnswers = s'.userAnswers) := by
  obtain ⟨hsr, hcm⟩ := (phase_answering_iff s).mp hph
  have hle := answers_length_le s.userAnswers quiz.questions.length hnodup hbound
  have hiff := all_answered_iff_length s.userAnswers quiz.questions.length
    hnodup hbound
  refine ⟨?_, ?_, ?_⟩
  · intro hall
    have hlen : s.userAnswers.length = quiz.questions.length := hiff.mp hall
    unfold handleSubmitClick
    rw [if_neg (by omega)]
    exact ⟨by simp [SessionState.phase], rfl⟩
  · intro hnot
    have hlen : s.userAnswers.length ≠ quiz.questions.length := by
      intro h; exact hnot (hiff.mpr h)
    unfold handleSubmitClick
    rw [if_pos (by omega)]
    refine ⟨?_, rfl⟩
    rw [phase_confirmPending_iff]
    exact ⟨hsr, rfl⟩
  · intro s' hcp
    obtain ⟨hsr', hcm'⟩ := (phase_confirmPending_iff s').mp hcp
    refine ⟨by simp [handleConfirmSubmit, SessionState.phase], ?_, rfl⟩
    rw [phase_answering_iff]
    exact ⟨hsr', rfl⟩

/-- Witness for C4 at a concrete quiz and state: one question, fully
answered, submit goes straight to Results. -/
theorem submit_flow_spec_witness :
    (handleSubmitClick ⟨[⟨"q", ["a", "b"], "a"⟩]⟩
        ⟨[(0, "a")], false, false⟩).phase = Phase.Results ∧
    (handleSubmitClick ⟨[⟨"q", ["a", "b"], "a"⟩]⟩
        ⟨[(0, "a")], false, false⟩).userAnswers = [(0, "a")] :=
  (submit_flow_spec ⟨[⟨"q", ["a", "b"], "a"⟩]⟩ ⟨[(0, "a")], false, false⟩
    (by decide) (by decide) (by decide)).1 (by decide)

/-- The discrete user-interaction events `QuizDisplay` wires to its
handlers: clicking an option button, the submit button, and the modal's
confirm and cancel buttons. -/
inductive QuizEvent where
  | select (questionIndex : Nat) (option : String)
  | submitClick
  | confirmSubmit
  | cancelConfirm
deriving DecidableEq, Repr

/-- Dispatch one event to its handler. -/
def stepEvent (quiz : Quiz) (s : SessionState) : QuizEvent → SessionState
  | .select i opt => handleAnswerSelect s i opt
  | .submitClick => handleSubmitClick quiz s
  | .confirmSubmit => handleConfirmSubmit s
  | .cancelConfirm => onCancelConfirm s

/-- Run a session from the initial state through a list of events. -/
def runSession (quiz : Quiz) (events : List QuizEvent) : SessionState :=
  events.foldl (stepEvent quiz) initialSession

/-- Whether the rendered UI can produce an event: selection events carry an
index obtained by enumerating `quiz.questions` (the `quiz.questions.map`
render loop), hence below the question count. -/
def eventFromUI (quiz : Quiz) : QuizEvent → Bool
  | .select i _ => i < quiz.questions.length
  | _ => true

/-- Well-formedness of the answer map for a quiz of `N` questions: all
keys are question indices below `N` and the keys are distinct. -/
def answersWF (N : Nat) (m : AnswerMap) : Prop :=
  (∀ p ∈ m, p.1 < N) ∧ (m.map Prod.fst).Nodup

theorem insertAnswer_wf (N : Nat) (m : AnswerMap) (i : Nat) (o : String)
    (hm : answersWF N m) (hi : i < N) : answersWF N (insertAnswer m i o) := by
  obtain ⟨hb, hn⟩ := hm
  constructor
  · intro p hp
    rcases List.mem_cons.mp hp with h | h
    · rw [h]
      exact hi
    · exact hb p (List.mem_of_mem_filter h)
  · simp only [insertAnswer, List.map_cons]
    refine List.nodup_cons.mpr ⟨?_, ?_⟩
    · intro hmem
      obtain ⟨p, hp, hfst⟩ := List.mem_map.mp hmem
      have hkeep := List.of_mem_filter hp
      rw [hfst] at hkeep
      simp at hkeep
    · have hsub : List.Sublist (m.filter (fun p => p.1 != i)) m :=
        List.filter_sublist m
      exact hn.sublist (hsub.map Prod.fst)

theorem handleSubmitClick_userAnswers (quiz : Quiz) (s : SessionState) :
    (handleSubmitClick quiz s).userAnswers = s.userAnswers := by
  unfold handleSubmitClick
  split <;> rfl

theorem stepEvent_wf (quiz : Quiz) (s : SessionState) (e : QuizEvent)
    (hwf : answersWF quiz.questions.length s.userAnswers)
    (he : eventFromUI quiz e = true) :
    answersWF quiz.questions.length (stepEvent quiz s e).userAnswers := by
  cases e with
  | select i opt =>
    have hi : i < quiz.questions.length := by
      simpa [eventFromUI] using he
    show answersWF quiz.questions.length (handleAnswerSelect s i opt).userAnswers
    unfold handleAnswerSelect
    split
    · exact hwf
    · exact insertAnswer_wf _ _ _ _ hwf hi
  | submitClick => rw [stepEvent, handleSubmitClick_userAnswers]; exact hwf
  | confirmSubmit => exact hwf
  | cancelConfirm => exact hwf

theorem foldl_session_wf (quiz : Quiz) :
    ∀ (events : List QuizEvent) (s : SessionState),
      answersWF quiz.questions.length s.userAnswers →
      (∀ e ∈ events, eventFromUI quiz e = true) →
      answersWF quiz.questions.length
        ((events.foldl (stepEvent quiz) s).userAnswers)
  | [], _, hwf, _ => hwf
  | e :: rest, s, hwf, hall => by
    rw [List.foldl_cons]
    exact foldl_session_wf quiz rest (stepEvent quiz s e)
      (stepEvent_wf quiz s e hwf (hall e (List.mem_cons_self e rest)))
      (fun e' he' => hall e' (List.mem_cons_of_mem e he'))

theorem tallyFrom_le_length (ans : AnswerMap) :
    ∀ (qs : List Question) (idx : Nat),
      (tallyFrom ans idx qs).1 + (tallyFrom ans idx qs).2 ≤ qs.length
  | [], _ => Nat.le_refl 0
  | q :: rest, idx => by
    have ih := tallyFrom_le_length ans rest (idx + 1)
    unfold tallyFrom
    cases h : lookupAnswer ans idx with
    | none => simpa using Nat.le_succ_of_le ih
    | some a =>
      by_cases hc : a = q.correctAnswer <;> simp [hc] <;> omega

/-- C10: starting from the fresh session, after any sequence of events the
rendered UI can produce (selection events carry indices enumerated from
the quiz's own question list), every key of the answer map is a question
index below N, the keys are distinct, and the defensively recomputed
unanswered count at Results is never negative. -/
theorem session_answers_in_range (quiz : Quiz) (events : List QuizEvent)
    (hall : ∀ e ∈ events, eventFromUI quiz e = true) (modal neg : Bool) :
    (∀ p ∈ (runSession quiz events).userAnswers,
      p.1 < quiz.questions.length) ∧
    ((runSession quiz events).userAnswers.map Prod.fst).Nodup ∧
    0 ≤ (scoreMemo quiz
      ⟨(runSession quiz events).userAnswers, true, modal⟩ neg).unansweredCount := by
  have hwf : answersWF quiz.questions.length
      (runSession quiz events).userAnswers := by
    unfold runSession
    exact foldl_session_wf quiz events initialSession
      ⟨fun p hp => absurd hp (List.not_mem_nil p), List.nodup_nil⟩ hall
  refine ⟨hwf.1, hwf.2, ?_⟩
  rw [scoreMemo_results]
  have hle := tallyFrom_le_length (runSession quiz events).userAnswers
    quiz.questions 0
  simp only []
  omega

/-- Witness for C10 at a concrete quiz and event trace. -/
theorem session_answers_in_range_witness :
    (∀ p ∈ (runSession ⟨[⟨"q", ["a", "b"], "a"⟩]⟩
        [QuizEvent.select 0 "b", QuizEvent.submitClick]).userAnswers,
      p.1 < (Quiz.mk [⟨"q", ["a", "b"], "a"⟩]).questions.length) ∧
    ((runSession ⟨[⟨"q", ["a", "b"], "a"⟩]⟩
        [QuizEvent.select 0 "b", QuizEvent.submitClick]).userAnswers.map
      Prod.fst).Nodup ∧
    0 ≤ (scoreMemo ⟨[⟨"q", ["a", "b"], "a"⟩]⟩
      ⟨(runSession ⟨[⟨"q", ["a", "b"], "a"⟩]⟩
          [QuizEvent.select 0 "b", QuizEvent.submitClick]).userAnswers,
        true, false⟩ true).unansweredCount :=
  session_answers_in_range ⟨[⟨"q", ["a", "b"], "a"⟩]⟩
    [QuizEvent.select 0 "b", QuizEvent.submitClick] (by decide) false true

/-- The destructuring swap `[array[i], array[j]] = [array[j], array[i]]`
of two positions of a JS array: position `i` receives the old element at
`j` and position `j` the old element at `i`.  Out-of-range positions leave
the list unchanged (unreachable in the source loop, where both indices are
always in bounds). -/
def listSwap {α : Type} (l : List α) (i j : Nat) : List α :=
  match l[i]?, l[j]? with
  | some a, some b => (l.set i b).set j a
  | _, _ => l

/-- The `for (let i = array.length - 1; i > 0; i--)` loop of
`shuffleArray`, with the draw at step `i` (the source's
`Math.floor(Math.random() * (i + 1))`, an index in `[0, i]`) supplied by
`draws i`. -/
def fisherYatesAux {α : Type} (draws : Nat → Nat) : Nat → List α → List α
  | 0, l => l
  | i + 1, l => fisherYatesAux draws i (listSwap l (i + 1) (draws (i + 1)))

/-- `shuffleArray` from `App.tsx`: Fisher–Yates from the last index down
to 1, with the random draws abstracted as a function from the loop index
to the drawn index. -/
def shuffleArray {α : Type} (l : List α) (draws : Nat → Nat) : List α :=
  fisherYatesAux draws (l.length - 1) l

theorem cons_set_perm {α : Type} :
    ∀ (xs : List α) (k : Nat) (hk : k < xs.length) (x : α),
      List.Perm (xs.get ⟨k, hk⟩ :: xs.set k x) (x :: xs)
  | [], _, hk, _ => absurd hk (Nat.not_lt_zero _)
  | y :: ys, 0, _, x => List.Perm.swap x y ys
  | y :: ys, k + 1, hk, x => by
    have hk' : k < ys.length := Nat.lt_of_succ_lt_succ (by simpa using hk)
    have ih := cons_set_perm ys k hk' x
    show List.Perm (ys.get ⟨k, hk'⟩ :: y :: ys.set k x) (x :: y :: ys)
    exact (List.Perm.swap y (ys.get ⟨k, hk'⟩) (ys.set k x)).trans
      ((ih.cons y).trans (List.Perm.swap x y ys))

theorem set_set_perm {α : Type} :
    ∀ (l : List α) (i j : Nat) (hi : i < l.length) (hj : j < l.length),
      List.Perm ((l.set i (l.get ⟨j, hj⟩)).set j (l.get ⟨i, hi⟩)) l
  | [], _, _, hi, _ => absurd hi (Nat.not_lt_zero _)
  | x :: xs, 0, 0, _, _ => List.Perm.refl _
  | x :: xs, 0, k + 1, _, hj => by
    have hk : k < xs.length := Nat.lt_of_succ_lt_succ (by simpa using hj)
    show List.Perm (xs.get ⟨k, hk⟩ :: xs.set k x) (x :: xs)
    exact cons_set_perm xs k hk x
  | x :: xs, m + 1, 0, hi, _ => by
    have hm : m < xs.length := Nat.lt_of_succ_lt_succ (by simpa using hi)
    show List.Perm (xs.get ⟨m, hm⟩ :: xs.set m x) (x :: xs)
    exact cons_set_perm xs m hm x
  | x :: xs, m + 1, k + 1, hi, hj => by
    have hm : m < xs.length := Nat.lt_of_succ_lt_succ (by simpa using hi)
    have hk : k < xs.length := Nat.lt_of_succ_lt_succ (by simpa using hj)
    show List.Perm
      (x :: (xs.set m (xs.get ⟨k, hk⟩)).set k (xs.get ⟨m, hm⟩)) (x :: xs)
    exact (set_set_perm xs m k hm hk).cons x

theorem listSwap_perm {α : Type} (l : List α) (i j : Nat) :
    List.Perm (listSwap l i j) l := by
  unfold listSwap
  cases hi : l[i]? with
  | none => exact List.Perm.refl l
  | some a =>
    cases hj : l[j]? with
    | none => exact List.Perm.refl l
    | some b =>
      obtain ⟨hi', ha⟩ := List.getElem?_eq_some_iff.mp hi
      obtain ⟨hj', hb⟩ := List.getElem?_eq_some_iff.mp hj
      have ha' : l.get ⟨i, hi'⟩ = a := by simpa using ha
      have hb' : l.get ⟨j, hj'⟩ = b := by simpa using hb
      rw [← ha', ← hb']
      exact set_set_perm l i j hi' hj'

theorem fisherYatesAux_perm {α : Type} (draws : Nat → Nat) :
    ∀ (n : Nat) (l : List α), List.Perm (fisherYatesAux draws n l) l
  | 0, l => List.Perm.refl l
  | i + 1, l =>
    (fisherYatesAux_perm draws i (listSwap l (i + 1) (draws (i + 1)))).trans
      (listSwap_perm l (i + 1) (draws (i + 1)))

/-- C5: the shuffle walks the indices from the last down to 1, swapping
index `i` with the drawn index (the step equation below); for every input
and every draw sequence the output is a permutation of the input, in
particular of the same length, and for a fixed draw sequence the output is
deterministic. -/
theorem shuffleArray_spec {α : Type} (l : List α) (draws : Nat → Nat) :
    List.Perm (shuffleArray l draws) l ∧
    (shuffleArray l draws).length = l.length ∧
    (∀ (l' : List α) (i : Nat), fisherYatesAux draws (i + 1) l' =
        fisherYatesAux draws i (listSwap l' (i + 1) (draws (i + 1)))) ∧
    (∀ draws₂ : Nat → Nat, (∀ k, draws k = draws₂ k) →
        shuffleArray l draws = shuffleArray l draws₂) := by
  refine ⟨fisherYatesAux_perm draws _ l,
    (fisherYatesAux_perm draws _ l).length_eq, fun _ _ => rfl,
    fun draws₂ h => ?_⟩
  rw [funext h]

/-- Witness for C5 at a concrete list and draw sequence. -/
theorem shuffleArray_spec_witness :
    List.Perm (shuffleArray [10, 20, 30] (fun _ => 0)) [10, 20, 30] ∧
    shuffleArray [10, 20, 30] (fun _ => 0) =
      shuffleArray [10, 20, 30] (fun k => 0 * k) := by
  constructor
  · exact (shuffleArray_spec [10, 20, 30] (fun _ => 0)).1
  · exact (shuffleArray_spec [10, 20, 30] (fun _ => 0)).2.2.2
      (fun k => 0 * k) (fun k => (Nat.zero_mul k).symm)

/-- The `num-questions` onChange handler of `QuizInput`: `valueAsNumber`
is modelled as `none` for `NaN` and as a rational otherwise (every finite
JS number is rational); a `NaN` stores 1, any number stores
`Math.floor(Math.max(1, Math.min(50, num)))`. -/
def clampNumQuestions : Option ℚ → ℤ
  | none => 1
  | some num => ⌊max 1 (min 50 num)⌋

/-- The spec's clamping map, written from its words: non-numeric input
maps to 1, a number `N` maps to `max(1, min(50, floor(N)))`. -/
def specClampNumQuestions : Option ℚ → ℤ
  | none => 1
  | some num => max 1 (min 50 ⌊num⌋)

/-- C6: the handler's `floor(max(1, min(50, N)))` equals the spec's
`max(1, min(50, floor(N)))` on every number, and non-numeric input stores
1 in both. -/
theorem clampNumQuestions_eq_spec (x : Option ℚ) :
    clampNumQuestions x = specClampNumQuestions x := by
  cases x with
  | none => rfl
  | some num =>
    show ⌊max 1 (min 50 num)⌋ = max 1 (min 50 ⌊num⌋)
    have hmax : (⌊max (1 : ℚ) (min 50 num)⌋ : ℤ) =
        max ⌊(1 : ℚ)⌋ ⌊min (50 : ℚ) num⌋ := Int.floor_mono.map_max
    have hmin : (⌊min (50 : ℚ) num⌋ : ℤ) = min ⌊(50 : ℚ)⌋ ⌊num⌋ :=
      Int.floor_mono.map_min
    rw [hmax, hmin, Int.floor_one]
    norm_num

/-- JSON values as produced by `JSON.parse`. -/
inductive JsonVal where
  | null
  | bool (b : Bool)
  | num (q : ℚ)
  | str (s : String)
  | arr (elems : List JsonVal)
  | obj (fields : List (String × JsonVal))

/-- Property access `quizData.questions`: a field lookup on an object,
`none` (JS `undefined`) on a missing field or a non-object. -/
def getField : JsonVal → String → Option JsonVal
  | .obj fields, key => fields.lookup key
  | _, _ => none

/-- JS truthiness of a possibly-undefined value (`!x` negates this):
`undefined`, `null`, `false`, `0` and `""` are falsy, everything else —
including every array and object — is truthy. -/
def jsTruthy : Option JsonVal → Bool
  | none => false
  | some .null => false
  | some (.bool b) => b
  | some (.num q) => decide (q ≠ 0)
  | some (.str s) => decide (s ≠ "")
  | some (.arr _) => true
  | some (.obj _) => true

/-- `Array.isArray` on a possibly-undefined value. -/
def jsIsArray : Option JsonVal → Bool
  | some (.arr _) => true
  | _ => false

/-- The validation step of `generateQuizFromText` applied to the parsed
response, together with the surrounding catch: when
`!quizData.questions || !Array.isArray(quizData.questions)` it throws
`"Invalid quiz format received from API."`, which the catch re-throws
with its message wrapped as `` `Failed to generate quiz. ${message}` ``;
otherwise the parsed data is returned as the quiz. -/
def generateQuizFromText (quizData : JsonVal) : Except String JsonVal :=
  if !(jsTruthy (getField quizData "questions")) ||
      !(jsIsArray (getField quizData "questions")) then
    Except.error ("Failed to generate quiz. " ++
      "Invalid quiz format received from API.")
  else
    Except.ok quizData

/-- C8: generation fails with the wrapped GenerationError message exactly
when the parsed response's `questions` field is not an array, and returns
the parsed quiz otherwise. -/
theorem generateQuiz_validation (quizData : JsonVal) :
    generateQuizFromText quizData =
      (if jsIsArray (getField quizData "questions") then Except.ok quizData
       else Except.error
         "Failed to generate quiz. Invalid quiz format received from API.") := by
  unfold generateQuizFromText
  cases h : getField quizData "questions" with
  | none => rfl
  | some v => cases v <;> simp [jsTruthy, jsIsArray]

/-- JS `String.prototype.trim` on the underlying character list: remove
leading and trailing whitespace. -/
def trimChars (s : List Char) : List Char :=
  ((s.dropWhile Char.isWhitespace).reverse.dropWhile Char.isWhitespace).reverse

/-- `text.trim()`. -/
def jsTrim (s : String) : String := String.mk (trimChars s.data)

theorem trimChars_length_le (s : List Char) :
    (trimChars s).length ≤ s.length := by
  unfold trimChars
  have h1 : List.Sublist (s.dropWhile Char.isWhitespace) s :=
    List.dropWhile_sublist _
  have h2 : List.Sublist
      ((s.dropWhile Char.isWhitespace).reverse.dropWhile Char.isWhitespace)
      (s.dropWhile Char.isWhitespace).reverse :=
    List.dropWhile_sublist _
  have l1 := h1.length_le
  have l2 := h2.length_le
  simp only [List.length_reverse] at *
  omega

theorem jsTrim_length_le (s : String) : (jsTrim s).length ≤ s.length :=
  trimChars_length_le s.data

/-- The text-mode path of `handleSubmit` in `QuizInput`: reject a question
count outside 1..50, reject text whose trimmed length is below 100,
otherwise invoke generation with the text verbatim. -/
def handleSubmitText (numQuestions : ℤ) (text : String) :
    Except String String :=
  if numQuestions < 1 ∨ numQuestions > 50 then
    Except.error "Please enter a number of questions between 1 and 50."
  else if (jsTrim text).length < 100 then
    Except.error "Please enter at least 100 characters of text."
  else
    Except.ok text

/-- C9 counterexample: a text input of exactly 100 characters (here 100
spaces) is rejected, because the handler tests the TRIMMED length, so the
claim "exactly 100 characters is accepted" fails. -/
theorem text_100_chars_rejected :
    (String.mk (List.replicate 100 ' ')).length = 100 ∧
    handleSubmitText 10 (String.mk (List.replicate 100 ' ')) =
      Except.error "Please enter at least 100 characters of text." := by
  constructor
  · rfl
  · rfl

/-- C9 amended: with the question count in range, text of exactly 99
characters is always rejected without invoking generation (trimming never
lengthens a string), and text is accepted — with generation invoked on the
verbatim text — exactly when its trimmed length is at least 100 (so a
100-character input is accepted when it has no leading or trailing
whitespace). -/
theorem text_min_length_gate (numQuestions : ℤ) (text : String)
    (h1 : 1 ≤ numQuestions) (h2 : numQuestions ≤ 50) :
    (text.length = 99 → handleSubmitText numQuestions text =
        Except.error "Please enter at least 100 characters of text.") ∧
    (100 ≤ (jsTrim text).length →
        handleSubmitText numQuestions text = Except.ok text) ∧
    ((jsTrim text).length < 100 →
        handleSubmitText numQuestions text =
          Except.error "Please enter at least 100 characters of text.") := by
  have hnq : ¬(numQuestions < 1 ∨ numQuestions > 50) := by omega
  refine ⟨?_, ?_, ?_⟩
  · intro hlen
    have hle := jsTrim_length_le text
    unfold handleSubmitText
    rw [if_neg hnq, if_pos (by omega)]
  · intro hge
    unfold handleSubmitText
    rw [if_neg hnq, if_neg (by omega)]
  · intro hlt
    unfold handleSubmitText
    rw [if_neg hnq, if_pos hlt]

/-- Witness for the amended C9 theorem: 99 non-blank characters are
rejected, 100 non-blank characters are accepted. -/
theorem text_min_length_gate_witness :
    handleSubmitText 10 (String.mk (List.replicate 99 'x')) =
      Except.error "Please enter at least 100 characters of text." ∧
    handleSubmitText 10 (String.mk (List.replicate 100 'x')) =
      Except.ok (String.mk (List.replicate 100 'x')) := by
  constructor
  · exact (text_min_length_gate 10 (String.mk (List.replicate 99 'x'))
      (by omega) (by omega)).1 (by decide)
  · exact (text_min_length_gate 10 (String.mk (List.replicate 100 'x'))
      (by omega) (by omega)).2.1 (by decide)

/-- C7: the negative-marking flag changes at most the final score — the
three counts computed with the flag on equal those computed with it off,
for every session state. -/
theorem negMarking_counts_frame (quiz : Quiz) (s : SessionState) :
    (scoreMemo quiz s true).correctCount = (scoreMemo quiz s false).correctCount ∧
    (scoreMemo quiz s true).incorrectCount = (scoreMemo quiz s false).incorrectCount ∧
    (scoreMemo quiz s true).unansweredCount = (scoreMemo quiz s false).unansweredCount := by
  unfold scoreMemo
  by_cases h : s.showResults = false <;> simp [h]
